import Mathlib

/-
  Verification development for the hugo-link-checker repository.

  The Go sources are shallowly embedded: pure string/path manipulation is
  translated to executable Lean functions on `String` (internally `List Char`),
  and all effects (filesystem stat/readDir, HTTP HEAD/GET, DNS lookups, the
  clock) are supplied by an explicit environment record `Env`, so every
  function of the checker becomes a pure function of its inputs and the
  environment.
-/

namespace HugoLinkChecker

/-! ## Models of the Go `strings` primitives -/

/-- Helper for `strings.Contains`: is `pat` an infix of the character list. -/
def containsSub (pat : List Char) : List Char → Bool
  | [] => pat.isEmpty
  | c :: rest => pat.isPrefixOf (c :: rest) || containsSub pat rest

/-- Model of Go `strings.Contains`. -/
def strContains (s sub : String) : Bool := containsSub sub.toList s.toList

/-- Model of Go `strings.HasPrefix`. -/
def goHasPrefix (s p : String) : Bool := p.toList.isPrefixOf s.toList

/-- Model of Go `strings.HasSuffix`. -/
def goHasSuffix (s p : String) : Bool := p.toList.isSuffixOf s.toList

/-- Model of Go `strings.TrimPrefix`. -/
def goTrimPrefix (s p : String) : String :=
  if p.toList.isPrefixOf s.toList then ⟨s.toList.drop p.toList.length⟩ else s

/-- Model of Go `strings.TrimSuffix`. -/
def goTrimSuffix (s p : String) : String :=
  if p.toList.isSuffixOf s.toList then ⟨s.toList.take (s.toList.length - p.toList.length)⟩ else s

/-- Model of Go `strings.TrimLeft` (cutset semantics). -/
def goTrimLeft (s cutset : String) : String :=
  ⟨s.toList.dropWhile (fun c => cutset.toList.contains c)⟩

/-- Model of Go `strings.TrimRight` (cutset semantics). -/
def goTrimRight (s cutset : String) : String :=
  ⟨(s.toList.reverse.dropWhile (fun c => cutset.toList.contains c)).reverse⟩

/-- Model of Go `strings.TrimSpace` (ASCII whitespace suffices for the
    strings handled here). -/
def goTrimSpace (s : String) : String :=
  ⟨((s.toList.dropWhile Char.isWhitespace).reverse.dropWhile Char.isWhitespace).reverse⟩

/-- Model of the Go idiom `if idx := strings.Index(s, c); idx != -1 then s = s[:idx]`:
    truncate at the first occurrence of character `c`. -/
def cutAtChar (s : String) (c : Char) : String :=
  match s.toList.findIdx? (fun x => x = c) with
  | some i => ⟨s.toList.take i⟩
  | none => s

/-- Model of `net/url`'s internal `split(s, sep, cutc)`: cut at the first
    occurrence of `c`; `cutc` drops the separator from the second half. -/
def goCutChar (s : String) (c : Char) (cutc : Bool) : String × String :=
  match s.toList.findIdx? (fun x => x = c) with
  | none => (s, "")
  | some i => (⟨s.toList.take i⟩, ⟨s.toList.drop (if cutc then i + 1 else i)⟩)

/-- Split a character list at every occurrence of character `c`
    (helper for `strings.Split` with a one-character separator). -/
def splitOnCharL (c : Char) : List Char → List (List Char)
  | [] => [[]]
  | x :: xs =>
    match splitOnCharL c xs with
    | [] => if x = c then [[], []] else [[x]]
    | h :: t => if x = c then [] :: h :: t else (x :: h) :: t

/-- Model of Go `strings.Split` with a one-character separator. -/
def goSplitChar (s : String) (c : Char) : List String := (splitOnCharL c s.toList).map (⟨·⟩)

/-- Index of the last occurrence of a character, as in `strings.LastIndex`. -/
def lastIdxChar (l : List Char) (c : Char) : Option Nat :=
  match l.reverse.findIdx? (fun x => x = c) with
  | none => none
  | some i => some (l.length - 1 - i)

/-- Characters before the first occurrence of `pat` (whole list if absent). -/
def takeUntilSub (pat : List Char) : List Char → List Char
  | [] => []
  | c :: rest => if pat.isPrefixOf (c :: rest) then [] else c :: takeUntilSub pat rest

/-- Model of `strings.Split(s, sep)[0]`: the prefix of `s` before the first
    occurrence of the (multi-character) separator. -/
def goSplitFirst (s sep : String) : String := ⟨takeUntilSub sep.toList s.toList⟩

/-- Model of Go `strings.Join`. -/
def joinSep (sep : String) : List String → String
  | [] => ""
  | [x] => x
  | x :: y :: xs => x ++ sep ++ joinSep sep (y :: xs)

/-- Model of Go `strings.EqualFold`, restricted to ASCII case folding
    (the paths compared here are ASCII). -/
def eqFold (a b : String) : Bool := a.toList.map Char.toLower == b.toList.map Char.toLower

/-- Model of Go `strings.ToLower` (ASCII). -/
def goToLower (s : String) : String := ⟨s.toList.map Char.toLower⟩

/-! ## Models of the Go `path/filepath` primitives (Unix separators) -/

/-- Stack-based segment processing of `filepath.Clean`: `out` is the reversed
    stack of output segments. Empty and `"."` segments are dropped; `".."`
    pops a non-`".."` segment, is dropped at the root, and is kept otherwise. -/
def cleanLoop (rooted : Bool) : List String → List String → List String
  | out, [] => out
  | out, seg :: rest =>
    if seg = "" || seg = "." then cleanLoop rooted out rest
    else if seg = ".." then
      match out with
      | [] => if rooted then cleanLoop rooted [] rest else cleanLoop rooted [".."] rest
      | top :: outRest =>
        if top = ".." then cleanLoop rooted (".." :: top :: outRest) rest
        else cleanLoop rooted outRest rest
    else cleanLoop rooted (seg :: out) rest

/-- Model of Go `filepath.Clean` for Unix paths. -/
def goClean (p : String) : String :=
  if p = "" then "."
  else
    let rooted := goHasPrefix p "/"
    let comps := (cleanLoop rooted [] ((splitOnCharL '/' p.toList).map (⟨·⟩))).reverse
    if rooted then "/" ++ joinSep "/" comps
    else if comps = [] then "." else joinSep "/" comps

/-- Model of Go `filepath.Join`: join the non-empty elements with `/` and
    `Clean` the result (dropping empty elements before joining produces the
    same cleaned path as Go's skip-leading-empties behavior, since `Clean`
    collapses the empty segments they would contribute). -/
def goJoin (elems : List String) : String :=
  let ne := elems.filter (fun e => e ≠ "")
  if ne = [] then "" else goClean (joinSep "/" ne)

/-- Model of Go `filepath.Ext`: the suffix from the final dot in the final
    path element, empty if there is no dot. -/
def goExt (p : String) : String :=
  let rev := p.toList.reverse
  let tail := rev.takeWhile (fun c => c ≠ '/')
  match tail.findIdx? (fun c => c = '.') with
  | some i => ⟨(tail.take (i + 1)).reverse⟩
  | none => ""

/-- Model of Go `filepath.Base`. -/
def goBase (p : String) : String :=
  if p = "" then "."
  else
    let l := p.toList.reverse.dropWhile (fun c => c = '/')
    if l = [] then "/" else ⟨(l.takeWhile (fun c => c ≠ '/')).reverse⟩

/-- Model of Go `filepath.Dir`. -/
def goDir (p : String) : String :=
  match lastIdxChar p.toList '/' with
  | none => "."
  | some i => goClean ⟨p.toList.take (i + 1)⟩

/-! ## Model of Go `net/url.Parse`

The repository's classifier (`isInternalLink` in the scanner) and the mailto
validator consult `net/url.Parse` only for the parsed `Scheme`, `Host` and
`Opaque` components and for parse success/failure.  The model below follows
the structure of `net/url`'s `parse` (with `viaRequest = false`): control
characters are rejected, the scheme is recognized by `getscheme`'s character
rules, a rootless remainder after a scheme becomes the opaque part, the
authority after `//` is split off and its host extracted (userinfo before the
last `@`, bracket/port validity checked), and invalid percent escapes are
rejected.  Percent-decoding of host/path and the stored fragment/query are
omitted: the repository never consults the decoded values. -/

/-- Hex-digit test used by the percent-escape validity check. -/
def isHexC (c : Char) : Bool :=
  c.isDigit || (decide (97 ≤ c.toNat) && decide (c.toNat ≤ 102)) ||
    (decide (65 ≤ c.toNat) && decide (c.toNat ≤ 70))

/-- All `%` escapes in the character list are followed by two hex digits
    (the validity condition of `net/url`'s `unescape`). -/
def validEscapes : List Char → Bool
  | [] => true
  | '%' :: a :: b :: rest => isHexC a && isHexC b && validEscapes rest
  | '%' :: _ :: [] => false
  | ['%'] => false
  | _ :: rest => validEscapes rest

/-- Model of `net/url`'s CTL-byte check. -/
def containsCTL (s : String) : Bool :=
  s.toList.any (fun c => decide (c.toNat < 32) || decide (c.toNat = 127))

/-- Loop of `net/url`'s `getscheme`: letters continue, digits and `+ - .`
    continue except in first position, `:` ends a scheme (error when first),
    anything else means the URL has no scheme. -/
def getSchemeAux (raw : String) : List Char → Nat → Except String (String × String)
  | [], _ => .ok ("", raw)
  | c :: rest, i =>
    if c.isAlpha then getSchemeAux raw rest (i + 1)
    else if c.isDigit || c = '+' || c = '-' || c = '.' then
      if i = 0 then .ok ("", raw) else getSchemeAux raw rest (i + 1)
    else if c = ':' then
      if i = 0 then .error "missing protocol scheme"
      else .ok (⟨raw.toList.take i⟩, ⟨raw.toList.drop (i + 1)⟩)
    else .ok ("", raw)

/-- Model of `net/url`'s `getscheme`. -/
def getScheme (raw : String) : Except String (String × String) := getSchemeAux raw raw.toList 0

/-- Model of `net/url`'s `validOptionalPort`. -/
def validOptionalPort (p : String) : Bool :=
  match p.toList with
  | [] => true
  | ':' :: rest => rest.all (fun c => c.isDigit)
  | _ => false

/-- Model of `net/url`'s `validUserinfo` (character 39 is the single quote). -/
def validUserinfo (s : String) : Bool :=
  s.toList.all (fun c =>
    c.isAlpha || c.isDigit || "-._:~!$&()*+,;=%@".toList.contains c || decide (c.toNat = 39))

/-- Model of `net/url`'s `parseHost`: bracketed hosts need a closing bracket
    and a valid optional port, unbracketed hosts need a valid optional port
    after the last colon, and percent escapes must be valid. -/
def parseHost (host : String) : Except String String :=
  if goHasPrefix host "[" then
    match lastIdxChar host.toList ']' with
    | none => .error "missing ] in host"
    | some i =>
      if validOptionalPort ⟨host.toList.drop (i + 1)⟩ then
        if validEscapes host.toList then .ok host else .error "invalid URL escape"
      else .error "invalid port after host"
  else
    match lastIdxChar host.toList ':' with
    | none => if validEscapes host.toList then .ok host else .error "invalid URL escape"
    | some i =>
      if validOptionalPort ⟨host.toList.drop i⟩ then
        if validEscapes host.toList then .ok host else .error "invalid URL escape"
      else .error "invalid port after host"

/-- Model of `net/url`'s `parseAuthority`: host from after the last `@`,
    then validate the userinfo before it. -/
def parseAuthority (authority : String) : Except String String :=
  match lastIdxChar authority.toList '@' with
  | none => parseHost authority
  | some i =>
    match parseHost ⟨authority.toList.drop (i + 1)⟩ with
    | .error e => .error e
    | .ok h =>
      if validUserinfo ⟨authority.toList.take i⟩ then .ok h
      else .error "invalid userinfo"

/-- The components of a parsed URL consulted by the repository. -/
structure GoURL where
  scheme : String
  opq : String
  host : String
  path : String
deriving DecidableEq

/-- Model of `net/url`'s `parse(rawURL, viaRequest := false)`. -/
def urlParseInner (raw : String) : Except String GoURL :=
  if containsCTL raw then .error "invalid control character in URL"
  else if raw = "*" then .ok {scheme := "", opq := "", host := "", path := "*"}
  else
    match getScheme raw with
    | .error e => .error e
    | .ok (sch0, rest0) =>
      let sch := goToLower sch0
      let rest1 :=
        if goHasSuffix rest0 "?" && !(strContains (goTrimSuffix rest0 "?") "?") then
          goTrimSuffix rest0 "?"
        else (goCutChar rest0 '?' true).1
      if !(goHasPrefix rest1 "/") && sch != "" then
        .ok {scheme := sch, opq := rest1, host := "", path := ""}
      else if !(goHasPrefix rest1 "/") && strContains (goCutChar rest1 '/' false).1 ":" then
        .error "first path segment in URL cannot contain colon"
      else if (sch != "" || !(goHasPrefix rest1 "///")) && goHasPrefix rest1 "//" then
        let cut := goCutChar ⟨rest1.toList.drop 2⟩ '/' false
        match parseAuthority cut.1 with
        | .error e => .error e
        | .ok h =>
          if validEscapes cut.2.toList then .ok {scheme := sch, opq := "", host := h, path := cut.2}
          else .error "invalid URL escape"
      else
        if validEscapes rest1.toList then .ok {scheme := sch, opq := "", host := "", path := rest1}
        else .error "invalid URL escape"

/-- Model of `net/url.Parse`: split the fragment off first, parse the rest,
    and reject invalid escapes in the fragment (as `setFragment` does). -/
def urlParse (rawURL : String) : Except String GoURL :=
  let c := goCutChar rawURL '#' true
  match urlParseInner c.1 with
  | .error e => .error e
  | .ok u => if validEscapes c.2.toList then .ok u else .error "invalid URL escape"

/-! ## Scanner data model (`internal/scanner`)

`LinkType`, `Link` and `File` follow the scanner source.  The `ignored`
field does not appear in the `Link` struct revision visible under `src/` but
is referenced by the checker revision at checker.go lines 27-82 and specified
in the spec's data model ("`ignored`: boolean — set by the Ignore Filter,
never cleared"); it is included here on that basis. -/

inductive LinkType where
  | internal
  | external
deriving DecidableEq

structure Link where
  url : String
  type : LinkType
  ignored : Bool
  lastChecked : Nat
  statusCode : Nat
  errorMessage : String
deriving DecidableEq

structure File where
  path : String
  canonicalPath : String
  links : List Link
deriving DecidableEq

/-- `isInternalLink` from the scanner: parse failure means internal; a
    non-empty scheme or host means external; otherwise internal. -/
def isInternalLink (linkURL : String) : Bool :=
  match urlParse linkURL with
  | .error _ => true
  | .ok u => if u.scheme != "" || u.host != "" then false else true

/-- `NewLink` from the scanner: classify and build a link with zero-valued
    check state. -/
def NewLink (linkURL : String) : Link :=
  {url := linkURL,
   type := if isInternalLink linkURL then LinkType.internal else LinkType.external,
   ignored := false, lastChecked := 0, statusCode := 0, errorMessage := ""}

/-! ## Extractor model (`ParseLinksFromFile`, part_002 lines 374-451)

The five regular expressions are abstracted as an oracle
`lineMatches : String → List String` producing, for one line, the URL
captures of all regexes in the source's order; the per-capture cleanup,
filtering and first-occurrence deduplication are modelled exactly. -/

/-- Lines as produced by `bufio.Scanner` with `ScanLines`: split on newline,
    no trailing empty token for a final newline, strip one trailing CR. -/
def goScanLines (text : String) : List String :=
  if text = "" then []
  else
    let ls := goSplitChar text '\n'
    let ls := if ls.getLast? = some "" then ls.dropLast else ls
    ls.map (fun l => goTrimSuffix l "\r")

/-- Per-capture processing of `ParseLinksFromFile`: trim, drop when empty,
    truncate at the first space and at the first double quote (inline
    titles), trim again, and drop empty or bare-fragment results. -/
def cleanCapture (m : String) : Option String :=
  let u := goTrimSpace m
  if u = "" then none
  else
    let u := cutAtChar u ' '
    let u := cutAtChar u '"'
    let u := goTrimSpace u
    if u = "" || u = "#" then none else some u

/-- One step of the extraction loop: the state is the set of seen URLs
    (the `linkMap`) and the accumulated links. -/
def extractStep (st : List String × List Link) (m : String) : List String × List Link :=
  match cleanCapture m with
  | none => st
  | some u => if st.1.contains u then st else (st.1 ++ [u], st.2 ++ [NewLink u])

/-- `ParseLinksFromFile`: process every capture of every line in order,
    deduplicating by exact URL string. -/
def ParseLinksFromFile (lineMatches : String → List String) (text : String) : List Link :=
  ((((goScanLines text).map lineMatches).flatten).foldl extractStep ([], [])).2

/-- Modelled from the spec: "first occurrence wins and determines the link's
    position" — keep the first occurrence of each string, in order. -/
def firstOccurrences (l : List String) : List String :=
  l.foldl (fun acc u => if acc.contains u then acc else acc ++ [u]) []

/-- The elements of `l` not already in `seen`, first occurrences only — the
    suffix that `firstOccurrences` appends after an accumulator `seen`. -/
def newOccurrences (seen : List String) : List String → List String
  | [] => []
  | u :: us =>
    if seen.contains u then newOccurrences seen us
    else u :: newOccurrences (seen ++ [u]) us

/-! ## Checker environment

All effects of `internal/checker` are supplied by an environment: `fs`
models `os.Stat` (the kind of entry at a path, or `none` when `Stat`
errors), `readDir` models `os.ReadDir`, `head`/`get` model the HTTP client
(`.ok code` is a response with that status, `.error msg` a transport error
with that text), `lookupMX`/`lookupHost` model the DNS lookups (success
flag), and `now` models `time.Now()`. -/

inductive FsEntry where
  | file
  | dir
deriving DecidableEq

structure Env where
  fs : String → Option FsEntry
  readDir : String → Option (List String)
  head : String → Except String Nat
  get : String → Except String Nat
  lookupMX : String → Bool
  lookupHost : String → Bool
  now : Nat

/-- Configuration of `CheckLinks` (checker.go lines 27-82). -/
structure Config where
  rootDir : String
  checkExternal : Bool
  checkPublic : Bool
  baseURL : String
  verbose : Bool

/-! ## Internal resolver (checker.go lines 221-435) -/

/-- The candidate-deduplication loop of `checkHugoFile` /
    `checkPublicFileVerbose`: a `seen` set plus `uniquePaths` in first-seen
    order. -/
def dedupLoop : List String → List String → List String → List String
  | _, uniq, [] => uniq
  | seen, uniq, p :: rest =>
    if seen.contains p then dedupLoop seen uniq rest
    else dedupLoop (seen ++ [p]) (uniq ++ [p]) rest

/-- Deduplicate candidate paths by exact string equality, keeping first-seen
    order. -/
def dedupFirst (paths : List String) : List String := dedupLoop [] [] paths

/-- `isSourceFilePath` (checker.go lines 411-414). -/
def isSourceFilePath (p : String) : Bool :=
  let ext := goToLower (goExt p)
  ext == ".md" || ext == ".markdown" || strContains p "/content/"

/-- `findCaseInsensitiveFile` (checker.go lines 417-435): list the parent
    directory and return the first case-insensitive match, or `""`. -/
def findCaseInsensitiveFile (e : Env) (targetPath : String) : String :=
  let dir := goDir targetPath
  let targetBase := goBase targetPath
  match e.readDir dir with
  | none => ""
  | some entries =>
    match entries.find? (fun n => eqFold n targetBase) with
    | some n => goJoin [dir, n]
    | none => ""

/-- The candidate paths generated by `checkHugoFile` (checker.go lines
    222-310), in source order, before deduplication. -/
def hugoCandidatePaths (linkPath rootDir : String) : List String :=
  let lp := goTrimPrefix linkPath "/"
  let hugoSiteRoot :=
    if strContains rootDir "/content/" then goSplitFirst rootDir "/content/" else rootDir
  let c := [goJoin [rootDir, lp]]
  let c := c ++ (if hugoSiteRoot ≠ rootDir then [goJoin [hugoSiteRoot, lp]] else [])
  let c := c ++ [goJoin [rootDir, "static", lp], goJoin [hugoSiteRoot, "static", lp]]
  let c := c ++ [goJoin [rootDir, "content", lp], goJoin [hugoSiteRoot, "content", lp]]
  let c := c ++
    (if goHasSuffix lp "/" then
      let bp := goTrimSuffix lp "/"
      [goJoin [rootDir, "content", bp ++ ".md"], goJoin [hugoSiteRoot, "content", bp ++ ".md"],
       goJoin [rootDir, "content", bp, "index.md"],
       goJoin [hugoSiteRoot, "content", bp, "index.md"],
       goJoin [rootDir, "content", bp, "_index.md"],
       goJoin [hugoSiteRoot, "content", bp, "_index.md"],
       goJoin [rootDir, bp ++ ".md"], goJoin [hugoSiteRoot, bp ++ ".md"],
       goJoin [rootDir, bp, "index.md"], goJoin [hugoSiteRoot, bp, "index.md"],
       goJoin [rootDir, bp, "_index.md"], goJoin [hugoSiteRoot, bp, "_index.md"]]
    else [])
  let c := c ++
    (if !(goHasSuffix lp "/") && !(strContains (goBase lp) ".") then
      [goJoin [rootDir, "content", lp ++ ".md"], goJoin [hugoSiteRoot, "content", lp ++ ".md"],
       goJoin [rootDir, "content", lp, "index.md"],
       goJoin [hugoSiteRoot, "content", lp, "index.md"],
       goJoin [rootDir, "content", lp, "_index.md"],
       goJoin [hugoSiteRoot, "content", lp, "_index.md"],
       goJoin [rootDir, lp ++ ".md"], goJoin [hugoSiteRoot, lp ++ ".md"],
       goJoin [rootDir, lp, "index.md"], goJoin [hugoSiteRoot, lp, "index.md"],
       goJoin [rootDir, lp, "_index.md"], goJoin [hugoSiteRoot, lp, "_index.md"]]
    else [])
  c

/-- The candidate-testing loop of `checkHugoFile` (checker.go lines 322-345):
    exact `os.Stat` match first, then the case-insensitive fallback for
    source-file paths; `checked` accumulates diagnostics when verbose. -/
def hugoFileLoop (e : Env) (verbose : Bool) : List String → List String → Bool × List String
  | checked, [] => (false, checked)
  | checked, p :: rest =>
    let checked2 := if verbose then checked ++ [p] else checked
    if (e.fs p).isSome then (true, checked2)
    else if isSourceFilePath p then
      let found := findCaseInsensitiveFile e p
      if found != "" then (true, if verbose then checked2 ++ [found] else checked2)
      else hugoFileLoop e verbose checked2 rest
    else hugoFileLoop e verbose checked2 rest

/-- `checkHugoFile` (checker.go lines 222-346). -/
def checkHugoFile (e : Env) (linkPath rootDir : String) (verbose : Bool) : Bool × List String :=
  hugoFileLoop e verbose [] (dedupFirst (hugoCandidatePaths linkPath rootDir))

/-- The candidate paths generated by `checkPublicFileVerbose` (checker.go
    lines 349-394), in source order, before deduplication. -/
def publicCandidatePaths (linkPath rootDir : String) : List String :=
  let lp := goTrimPrefix linkPath "/"
  let hugoSiteRoot :=
    if strContains rootDir "/content/" then goSplitFirst rootDir "/content/" else rootDir
  let c := [goJoin [hugoSiteRoot, "public", lp]]
  let c := c ++ (if goHasSuffix lp "/" then [goJoin [hugoSiteRoot, "public", lp, "index.html"]]
    else [])
  let c := c ++
    (if !(strContains (goBase lp) ".") then
      [goJoin [hugoSiteRoot, "public", lp, "index.html"],
       goJoin [hugoSiteRoot, "public", lp ++ "/index.html"]]
    else [])
  let c := c ++
    (if !(strContains (goBase lp) ".") then [goJoin [hugoSiteRoot, "public", lp ++ ".html"]]
    else [])
  c

/-- The stat-only candidate loop shared by `checkPublicFileVerbose`
    (checker.go lines 397-407) and the older `checkHugoFileVerbose`
    (lines 699-710). -/
def statLoop (e : Env) (verbose : Bool) : List String → List String → Bool × List String
  | checked, [] => (false, checked)
  | checked, p :: rest =>
    let checked2 := if verbose then checked ++ [p] else checked
    if (e.fs p).isSome then (true, checked2) else statLoop e verbose checked2 rest

/-- `checkPublicFileVerbose` (checker.go lines 349-408). -/
def checkPublicFileVerbose (e : Env) (linkPath rootDir : String) (verbose : Bool) :
    Bool × List String :=
  statLoop e verbose [] (dedupFirst (publicCandidatePaths linkPath rootDir))

/-! ## Per-link validators (checker.go lines 84-219) -/

/-- `checkMailtoLink` (checker.go lines 84-126). -/
def checkMailtoLink (e : Env) (link : Link) : Except String Link :=
  match urlParse link.url with
  | .error _ => .ok {link with statusCode := 0, errorMessage := "Invalid mailto URL"}
  | .ok u =>
    let email := u.opq
    if email = "" then .ok {link with statusCode := 0, errorMessage := "No email address in mailto URL"}
    else
      let parts := goSplitChar email '@'
      if parts.length != 2 then
        .ok {link with statusCode := 0, errorMessage := "Invalid email format"}
      else
        let domain := parts.getD 1 ""
        if e.lookupMX domain then .ok {link with statusCode := 200, errorMessage := ""}
        else if e.lookupHost domain then .ok {link with statusCode := 200, errorMessage := ""}
        else .ok {link with statusCode := 0, errorMessage := "Domain not found: " ++ domain}

/-- `checkExternalLink` (checker.go lines 128-154): HEAD, retry with GET on a
    transport error; a response records its status verbatim with an
    "HTTP \<code\>" message when >= 400; a double transport failure records
    status 0 with the (GET) error text. -/
def checkExternalLink (e : Env) (link : Link) : Except String Link :=
  match e.head link.url with
  | .ok code =>
    .ok {link with statusCode := code,
                   errorMessage := if 400 ≤ code then "HTTP " ++ toString code else ""}
  | .error _ =>
    match e.get link.url with
    | .ok code =>
      .ok {link with statusCode := code,
                     errorMessage := if 400 ≤ code then "HTTP " ++ toString code else ""}
    | .error msg => .ok {link with statusCode := 0, errorMessage := msg}

/-- The preprocessing of `checkInternalLink`: strip the fragment suffix,
    then the query suffix, from the link URL. -/
def stripPathSuffixes (url : String) : String := cutAtChar (cutAtChar url '#') '?'

/-- The temporary zero-valued link `&scanner.Link{URL: fullURL}` built by
    `checkInternalLink`'s remote mode. -/
def tempLink (u : String) : Link :=
  {url := u, type := LinkType.internal, ignored := false, lastChecked := 0, statusCode := 0,
   errorMessage := ""}

/-- The outcome mapping of `checkInternalLink`'s local mode, from the
    `(found, checkedPaths)` pair: found means 200/empty, otherwise 404 with
    either the verbose candidate-path diagnostic or "File not found". -/
def internalOutcome (verbose : Bool) (fr : Bool × List String) (link : Link) : Link :=
  if fr.1 then {link with statusCode := 200, errorMessage := ""}
  else
    {link with
      statusCode := 404,
      errorMessage :=
        if verbose && !(fr.2.isEmpty) then
          "File not found. Checked paths: " ++ joinSep ", " fr.2
        else "File not found"}

/-- `checkInternalLink` (checker.go lines 156-219). -/
def checkInternalLink (e : Env) (cfg : Config) (link : Link) : Except String Link :=
  if stripPathSuffixes link.url = "" then .ok {link with statusCode := 200, errorMessage := ""}
  else if cfg.baseURL ≠ "" then
    match checkExternalLink e
        (tempLink (goTrimRight cfg.baseURL "/" ++ "/" ++
          goTrimLeft (stripPathSuffixes link.url) "/")) with
    | .error err => .error err
    | .ok tmp => .ok {link with statusCode := tmp.statusCode, errorMessage := tmp.errorMessage}
  else
    .ok (internalOutcome cfg.verbose
      (if cfg.checkPublic then
        checkPublicFileVerbose e (stripPathSuffixes link.url) cfg.rootDir cfg.verbose
       else checkHugoFile e (stripPathSuffixes link.url) cfg.rootDir cfg.verbose) link)

/-! ## `CheckLinks` (checker.go lines 27-82) -/

/-- The per-link body of `CheckLinks`'s loop: ignored links and links with
    Hugo template syntax are finalized as 200/empty immediately; external
    links go to the mailto or HTTP validator when external checking is on
    and are marked OK otherwise; internal links go to the internal
    resolver.  `lastChecked` is set in every terminal case. -/
def checkLink (e : Env) (cfg : Config) (link : Link) : Except String Link :=
  if link.ignored then
    .ok {link with statusCode := 200, errorMessage := "", lastChecked := e.now}
  else if strContains link.url "\x7b\x7b" || strContains link.url "\x7d\x7d" then
    .ok {link with statusCode := 200, errorMessage := "", lastChecked := e.now}
  else if link.type == LinkType.external then
    if cfg.checkExternal then
      if goHasPrefix link.url "mailto:" then
        match checkMailtoLink e link with
        | .error err => .error ("error checking mailto link " ++ link.url ++ ": " ++ err)
        | .ok l2 => .ok {l2 with lastChecked := e.now}
      else
        match checkExternalLink e link with
        | .error err => .error ("error checking external link " ++ link.url ++ ": " ++ err)
        | .ok l2 => .ok {l2 with lastChecked := e.now}
    else
      .ok {link with statusCode := 200, errorMessage := "", lastChecked := e.now}
  else
    match checkInternalLink e cfg link with
    | .error err => .error ("error checking internal link " ++ link.url ++ ": " ++ err)
    | .ok l2 => .ok {l2 with lastChecked := e.now}

/-- The inner loop of `CheckLinks` over one file's links; an error from any
    link aborts the whole pass (as the Go `return` does). -/
def checkLinksList (e : Env) (cfg : Config) : List Link → Except String (List Link)
  | [] => .ok []
  | l :: ls =>
    match checkLink e cfg l with
    | .error err => .error err
    | .ok l2 =>
      match checkLinksList e cfg ls with
      | .error err => .error err
      | .ok ls2 => .ok (l2 :: ls2)

/-- The outer loop of `CheckLinks` over the files. -/
def checkFilesList (e : Env) (cfg : Config) : List File → Except String (List File)
  | [] => .ok []
  | f :: fs =>
    match checkLinksList e cfg f.links with
    | .error err => .error err
    | .ok ls =>
      match checkFilesList e cfg fs with
      | .error err => .error err
      | .ok fs2 => .ok ({f with links := ls} :: fs2)

/-- `CheckLinks` (checker.go lines 27-82), returning the updated files in
    place of Go's in-place mutation. -/
def CheckLinks (e : Env) (cfg : Config) (files : List File) : Except String (List File) :=
  checkFilesList e cfg files

/-- `CountBrokenLinks` (checker.go lines 438-452): ignored links are
    skipped; a link counts when its status is >= 400 or it is status 0 with
    a non-empty error. -/
def CountBrokenLinks (files : List File) : Nat :=
  files.foldl (fun count file =>
    file.links.foldl (fun count link =>
      if link.ignored then count
      else if 400 ≤ link.statusCode || (link.statusCode == 0 && link.errorMessage != "") then
        count + 1
      else count) count) 0

/-! ## Older checker revision (checker.go lines 453-724)

The same file carries an earlier revision of the pass whose
external-checking-disabled branch (lines 491-495) marks external links
status 0 with error "External link checking disabled", and which has no
ignore/template handling, no public mode and a single-root candidate
list. -/

/-- Candidate paths of the older `checkHugoFileVerbose` (checker.go lines
    639-697): single root, no deduplication. -/
def oldHugoCandidatePaths (linkPath rootDir : String) : List String :=
  let lp := goTrimPrefix linkPath "/"
  let c := [goJoin [rootDir, lp], goJoin [rootDir, "static", lp], goJoin [rootDir, "content", lp]]
  let c := c ++
    (if goHasSuffix lp "/" then
      let bp := goTrimSuffix lp "/"
      [goJoin [rootDir, "content", bp ++ ".md"], goJoin [rootDir, "content", bp, "index.md"],
       goJoin [rootDir, "content", bp, "_index.md"], goJoin [rootDir, bp ++ ".md"],
       goJoin [rootDir, bp, "index.md"], goJoin [rootDir, bp, "_index.md"]]
    else [])
  let c := c ++
    (if !(goHasSuffix lp "/") && !(strContains (goBase lp) ".") then
      [goJoin [rootDir, "content", lp ++ ".md"], goJoin [rootDir, "content", lp, "index.md"],
       goJoin [rootDir, "content", lp, "_index.md"], goJoin [rootDir, lp ++ ".md"],
       goJoin [rootDir, lp, "index.md"], goJoin [rootDir, lp, "_index.md"]]
    else [])
  c

/-- The older `checkHugoFileVerbose` (checker.go lines 639-711). -/
def oldCheckHugoFileVerbose (e : Env) (linkPath rootDir : String) (verbose : Bool) :
    Bool × List String :=
  statLoop e verbose [] (oldHugoCandidatePaths linkPath rootDir)

/-- The older `checkInternalLink` (checker.go lines 577-630). -/
def oldCheckInternalLink (e : Env) (rootDir baseURL : String) (verbose : Bool) (link : Link) :
    Except String Link :=
  if stripPathSuffixes link.url = "" then .ok {link with statusCode := 200, errorMessage := ""}
  else if baseURL ≠ "" then
    match checkExternalLink e
        (tempLink (goTrimRight baseURL "/" ++ "/" ++
          goTrimLeft (stripPathSuffixes link.url) "/")) with
    | .error err => .error err
    | .ok tmp => .ok {link with statusCode := tmp.statusCode, errorMessage := tmp.errorMessage}
  else
    .ok (internalOutcome verbose
      (oldCheckHugoFileVerbose e (stripPathSuffixes link.url) rootDir verbose) link)

/-- The per-link body of the older `CheckLinks` (checker.go lines 474-505):
    no ignore or template handling; with external checking disabled an
    external link is marked status 0 / "External link checking disabled". -/
def oldCheckLink (e : Env) (rootDir : String) (checkExternal : Bool) (baseURL : String)
    (verbose : Bool) (link : Link) : Except String Link :=
  if link.type == LinkType.external then
    if checkExternal then
      if goHasPrefix link.url "mailto:" then
        match checkMailtoLink e link with
        | .error err => .error ("error checking mailto link " ++ link.url ++ ": " ++ err)
        | .ok l2 => .ok {l2 with lastChecked := e.now}
      else
        match checkExternalLink e link with
        | .error err => .error ("error checking external link " ++ link.url ++ ": " ++ err)
        | .ok l2 => .ok {l2 with lastChecked := e.now}
    else
      .ok {link with statusCode := 0, errorMessage := "External link checking disabled",
                     lastChecked := e.now}
  else
    match oldCheckInternalLink e rootDir baseURL verbose link with
    | .error err => .error ("error checking internal link " ++ link.url ++ ": " ++ err)
    | .ok l2 => .ok {l2 with lastChecked := e.now}

/-! ## Reporter (`internal/reporter`, lines 221-248) -/

structure ReportSummary where
  totalFiles : Nat
  totalLinks : Nat
  uniqueLinks : Nat
  brokenLinks : Nat
  internalLinks : Nat
  externalLinks : Nat
deriving DecidableEq

/-- The per-link body of `calculateSummary`'s loop: record the URL in the
    unique set, bump the internal/external counter, and bump the broken
    counter when status >= 400 or status 0 with non-empty error — with no
    test of `ignored`. -/
def summaryStep (st : List String × ReportSummary) (link : Link) : List String × ReportSummary :=
  let uniq := if st.1.contains link.url then st.1 else st.1 ++ [link.url]
  let s := st.2
  let s :=
    if link.type == LinkType.external then {s with externalLinks := s.externalLinks + 1}
    else {s with internalLinks := s.internalLinks + 1}
  let s :=
    if 400 ≤ link.statusCode || (link.statusCode == 0 && link.errorMessage != "") then
      {s with brokenLinks := s.brokenLinks + 1}
    else s
  (uniq, s)

/-- `calculateSummary` (reporter.go lines 221-248). -/
def calculateSummary (files : List File) : ReportSummary :=
  let init : List String × ReportSummary :=
    ([], {totalFiles := files.length, totalLinks := 0, uniqueLinks := 0, brokenLinks := 0,
          internalLinks := 0, externalLinks := 0})
  let res := files.foldl (fun st file =>
    (file.links.foldl summaryStep
      (st.1, {st.2 with totalLinks := st.2.totalLinks + file.links.length}))) init
  {res.2 with uniqueLinks := res.1.length}

/-! ## The broken-link predicate as the spec states it -/

/-- Modelled from the spec: "a link counts as broken iff it is not ignored
    AND (statusCode >= 400 OR (statusCode == 0 AND errorMessage
    non-empty))". -/
def specBroken (l : Link) : Bool :=
  !l.ignored && (decide (400 ≤ l.statusCode) || (l.statusCode == 0 && l.errorMessage != ""))

/-- The raw status-only predicate, without the not-ignored conjunct — the
    form `calculateSummary` and the report renderers actually apply. -/
def rawBroken (l : Link) : Bool :=
  decide (400 ≤ l.statusCode) || (l.statusCode == 0 && l.errorMessage != "")

/-- All links of a file collection, in order. -/
def allLinks (files : List File) : List Link := (files.map File.links).flatten

/-! ## Concrete fixtures used to evaluate the development -/

/-- An environment in which every stat, directory read, HTTP request and DNS
    lookup fails, at time 7. -/
def envNone : Env :=
  {fs := fun _ => none, readDir := fun _ => none,
   head := fun _ => Except.error "connection refused",
   get := fun _ => Except.error "connection refused",
   lookupMX := fun _ => false, lookupHost := fun _ => false, now := 7}

/-- As `envNone` but every HEAD request answers with status 404. -/
def env404 : Env := {envNone with head := fun _ => Except.ok 404}

/-- As `envNone` but `r/static` exists as a directory; no regular file
    exists anywhere. -/
def envStaticDir : Env :=
  {envNone with fs := fun p => if p = "r/static" then some FsEntry.dir else none}

/-- Local source-tree configuration with root `r` and external checking
    off. -/
def cfgLocal : Config :=
  {rootDir := "r", checkExternal := false, checkPublic := false, baseURL := "", verbose := false}

/-- As `cfgLocal` with external checking on. -/
def cfgExternal : Config := {cfgLocal with checkExternal := true}

def linkExternal : Link :=
  {url := "https://example.com/gone", type := LinkType.external, ignored := false,
   lastChecked := 0, statusCode := 0, errorMessage := ""}

def linkIgnored : Link :=
  {url := "/any", type := LinkType.internal, ignored := true, lastChecked := 0,
   statusCode := 0, errorMessage := ""}

def linkTemplate : Link :=
  {url := "/docs/\x7b\x7b ref \x7d\x7d/", type := LinkType.internal, ignored := false,
   lastChecked := 0, statusCode := 0, errorMessage := ""}

def linkStatic : Link :=
  {url := "/static", type := LinkType.internal, ignored := false, lastChecked := 0,
   statusCode := 0, errorMessage := ""}

def fileExternal : File := {path := "p.md", canonicalPath := "/p.md", links := [linkExternal]}

/-- A file whose single link is ignored yet carries a 404 status. -/
def fileIgnored404 : File :=
  {path := "p.md", canonicalPath := "/p.md",
   links := [{url := "/gone", type := LinkType.internal, ignored := true, lastChecked := 1,
              statusCode := 404, errorMessage := "File not found"}]}

/-- A file with an ignored link finalized as 200/empty (as `CheckLinks`
    produces) and one genuinely broken link. -/
def fileMixed : File :=
  {path := "q.md", canonicalPath := "/q.md",
   links := [{url := "/ok", type := LinkType.internal, ignored := true, lastChecked := 1,
              statusCode := 200, errorMessage := ""},
             {url := "/gone", type := LinkType.internal, ignored := false, lastChecked := 1,
              statusCode := 404, errorMessage := "File not found"}]}

/-! # Theorems -/

/-! ## Totality of the per-link validators -/

theorem checkMailtoLink_isOk (e : Env) (l : Link) : ∃ l2, checkMailtoLink e l = Except.ok l2 := by
  unfold checkMailtoLink
  split
  · exact ⟨_, rfl⟩
  · dsimp only
    repeat' split
    all_goals exact ⟨_, rfl⟩

theorem checkExternalLink_isOk (e : Env) (l : Link) :
    ∃ l2, checkExternalLink e l = Except.ok l2 := by
  unfold checkExternalLink
  cases e.head l.url with
  | ok code => exact ⟨_, rfl⟩
  | error m => cases e.get l.url <;> exact ⟨_, rfl⟩

theorem checkInternalLink_isOk (e : Env) (cfg : Config) (l : Link) :
    ∃ l2, checkInternalLink e cfg l = Except.ok l2 := by
  unfold checkInternalLink
  split
  · exact ⟨_, rfl⟩
  · split
    · obtain ⟨t, ht⟩ := checkExternalLink_isOk e
        (tempLink (goTrimRight cfg.baseURL "/" ++ "/" ++
          goTrimLeft (stripPathSuffixes l.url) "/"))
      rw [ht]
      exact ⟨_, rfl⟩
    · exact ⟨_, rfl⟩

theorem checkLink_isOk (e : Env) (cfg : Config) (l : Link) :
    ∃ l2, checkLink e cfg l = Except.ok l2 := by
  unfold checkLink
  split
  · exact ⟨_, rfl⟩
  split
  · exact ⟨_, rfl⟩
  split
  · split
    · split
      · obtain ⟨t, ht⟩ := checkMailtoLink_isOk e l
        rw [ht]
        exact ⟨_, rfl⟩
      · obtain ⟨t, ht⟩ := checkExternalLink_isOk e l
        rw [ht]
        exact ⟨_, rfl⟩
    · exact ⟨_, rfl⟩
  · obtain ⟨t, ht⟩ := checkInternalLink_isOk e cfg l
    rw [ht]
    exact ⟨_, rfl⟩

theorem checkLinksList_isOk (e : Env) (cfg : Config) (ls : List Link) :
    ∃ out, checkLinksList e cfg ls = Except.ok out ∧ out.length = ls.length := by
  induction ls with
  | nil => exact ⟨[], rfl, rfl⟩
  | cons l ls ih =>
    obtain ⟨l2, hl⟩ := checkLink_isOk e cfg l
    obtain ⟨out, hout, hlen⟩ := ih
    refine ⟨l2 :: out, ?_, by simp [hlen]⟩
    unfold checkLinksList
    rw [hl, hout]

theorem checkFilesList_isOk (e : Env) (cfg : Config) (files : List File) :
    ∃ out, checkFilesList e cfg files = Except.ok out ∧ out.length = files.length := by
  induction files with
  | nil => exact ⟨[], rfl, rfl⟩
  | cons f fs ih =>
    obtain ⟨ls, hls, _⟩ := checkLinksList_isOk e cfg f.links
    obtain ⟨out, hout, hlen⟩ := ih
    refine ⟨{f with links := ls} :: out, ?_, by simp [hlen]⟩
    unfold checkFilesList
    rw [hls, hout]

/-- C8: for every environment (hence any per-link validation outcome,
    including unreachable hosts, malformed mailto addresses and missing
    files), configuration and input collection, `CheckLinks` returns a nil
    error — terminal per-link conditions are encoded in the links, never
    propagated, and every file is processed. -/
theorem checkLinks_never_errors (e : Env) (cfg : Config) (files : List File) :
    ∃ out, CheckLinks e cfg files = Except.ok out ∧ out.length = files.length :=
  checkFilesList_isOk e cfg files

/-- C2 (amended): when external checking is disabled the external links are
    not probed; the `CheckLinks` revision at checker.go lines 27-82 marks
    every external link status 200 with empty error, while the older
    revision at lines 453-508 marks it status 0 with error "External link
    checking disabled". -/
theorem externalDisabled_marking (e : Env) (cfg : Config) (rootDir baseURL : String)
    (verbose : Bool) (l : Link) (hT : l.type = LinkType.external)
    (hC : cfg.checkExternal = false) :
    checkLink e cfg l =
      Except.ok {l with statusCode := 200, errorMessage := "", lastChecked := e.now} ∧
    oldCheckLink e rootDir false baseURL verbose l =
      Except.ok {l with
                  statusCode := 0,
                  errorMessage := "External link checking disabled",
                  lastChecked := e.now} := by
  constructor
  · unfold checkLink
    rw [hT, hC]
    split
    · rfl
    split
    · rfl
    · simp
  · unfold oldCheckLink
    rw [hT]
    simp

/-- Witness for C2's amended theorem at a concrete external link. -/
theorem externalDisabled_marking_witness :
    checkLink envNone cfgLocal linkExternal =
      Except.ok {linkExternal with statusCode := 200, errorMessage := "", lastChecked := 7} ∧
    oldCheckLink envNone "r" false "" false linkExternal =
      Except.ok {linkExternal with
                  statusCode := 0,
                  errorMessage := "External link checking disabled",
                  lastChecked := 7} :=
  externalDisabled_marking envNone cfgLocal "r" "" false linkExternal rfl rfl

/-- C2 counterexample: the claim asserts that with external checking
    disabled the validation pass marks external links status 0 with error
    "External link checking disabled"; the pass at checker.go lines 27-82
    instead marks this external link status 200 with empty error. -/
theorem externalDisabled_counterexample :
    CheckLinks envNone cfgLocal [fileExternal] =
      Except.ok [{path := "p.md", canonicalPath := "/p.md",
                  links := [{url := "https://example.com/gone", type := LinkType.external,
                             ignored := false, lastChecked := 7, statusCode := 200,
                             errorMessage := ""}]}] ∧
    ((200 : Nat) ≠ 0 ∧ ("" : String) ≠ "External link checking disabled") :=
  ⟨rfl, by decide⟩

/-- C4: a link whose raw URL contains a templating delimiter is finalized
    as status 200 with empty error and a set timestamp, and its outcome is
    independent of the environment and of the whole configuration (so no
    resolver runs on it). -/
theorem templateLink_unconditionallyValid (e : Env) (cfg : Config) (l : Link)
    (h : strContains l.url "\x7b\x7b" = true ∨ strContains l.url "\x7d\x7d" = true) :
    checkLink e cfg l =
      Except.ok {l with statusCode := 200, errorMessage := "", lastChecked := e.now} ∧
    (∀ e2 (cfg2 : Config), e2.now = e.now → checkLink e2 cfg2 l = checkLink e cfg l) := by
  have main : ∀ e3 (cfg3 : Config), e3.now = e.now → checkLink e3 cfg3 l =
      Except.ok {l with statusCode := 200, errorMessage := "", lastChecked := e.now} := by
    intro e3 cfg3 hnow
    unfold checkLink
    rw [hnow]
    split
    · rfl
    · rcases h with h | h <;> simp [h]
  refine ⟨main e cfg rfl, fun e2 cfg2 hnow => ?_⟩
  rw [main e2 cfg2 hnow, main e cfg rfl]

/-- Witness for C4 at a concrete link containing both delimiters, with all
    resolver modes represented by `cfgLocal` vs `cfgExternal`. -/
theorem templateLink_unconditionallyValid_witness :
    checkLink envNone cfgLocal linkTemplate =
      Except.ok {linkTemplate with statusCode := 200, errorMessage := "", lastChecked := 7} ∧
    (∀ e2 (cfg2 : Config), e2.now = 7 →
      checkLink e2 cfg2 linkTemplate = checkLink envNone cfgLocal linkTemplate) :=
  templateLink_unconditionallyValid envNone cfgLocal linkTemplate (Or.inl (by decide))

/-- C5: an ignored link bypasses both resolvers — its outcome does not
    depend on the environment or configuration — and is finalized with
    status 200, empty error and the pass timestamp. -/
theorem ignoredLink_bypassed (e : Env) (cfg : Config) (l : Link) (h : l.ignored = true) :
    checkLink e cfg l =
      Except.ok {l with statusCode := 200, errorMessage := "", lastChecked := e.now} ∧
    (∀ e2 (cfg2 : Config), e2.now = e.now → checkLink e2 cfg2 l = checkLink e cfg l) := by
  have main : ∀ e3 (cfg3 : Config), e3.now = e.now → checkLink e3 cfg3 l =
      Except.ok {l with statusCode := 200, errorMessage := "", lastChecked := e.now} := by
    intro e3 cfg3 hnow
    unfold checkLink
    rw [h, hnow]
    rfl
  refine ⟨main e cfg rfl, fun e2 cfg2 hnow => ?_⟩
  rw [main e2 cfg2 hnow, main e cfg rfl]

/-- Witness for C5 at a concrete ignored link. -/
theorem ignoredLink_bypassed_witness :
    checkLink envNone cfgLocal linkIgnored =
      Except.ok {linkIgnored with statusCode := 200, errorMessage := "", lastChecked := 7} ∧
    (∀ e2 (cfg2 : Config), e2.now = 7 →
      checkLink e2 cfg2 linkIgnored = checkLink envNone cfgLocal linkIgnored) :=
  ignoredLink_bypassed envNone cfgLocal linkIgnored rfl

/-- C6: the external validator's HEAD/GET contract — a HEAD response is
    recorded verbatim with "HTTP \<code\>" exactly when >= 400 (and the GET
    oracle is never consulted); after a HEAD transport error the GET
    response is recorded the same way; a double transport failure records
    status 0 with the transport error text; and `CheckLinks` routes every
    non-ignored, non-template, non-mailto external link (with external
    checking on) through this validator. -/
theorem externalValidator_contract (e : Env) (l : Link) :
    (∀ code, e.head l.url = Except.ok code →
      checkExternalLink e l =
        Except.ok {l with
                    statusCode := code,
                    errorMessage := if 400 ≤ code then "HTTP " ++ toString code else ""}) ∧
    (∀ g code, e.head l.url = Except.ok code →
      checkExternalLink {e with get := g} l = checkExternalLink e l) ∧
    (∀ msg code, e.head l.url = Except.error msg → e.get l.url = Except.ok code →
      checkExternalLink e l =
        Except.ok {l with
                    statusCode := code,
                    errorMessage := if 400 ≤ code then "HTTP " ++ toString code else ""}) ∧
    (∀ m1 m2, e.head l.url = Except.error m1 → e.get l.url = Except.error m2 →
      checkExternalLink e l = Except.ok {l with statusCode := 0, errorMessage := m2}) ∧
    (∀ cfg : Config, l.ignored = false → strContains l.url "\x7b\x7b" = false →
      strContains l.url "\x7d\x7d" = false → l.type = LinkType.external →
      cfg.checkExternal = true → goHasPrefix l.url "mailto:" = false →
      ∃ l2, checkExternalLink e l = Except.ok l2 ∧
        checkLink e cfg l = Except.ok {l2 with lastChecked := e.now}) := by
  refine ⟨?_, ?_, ?_, ?_, ?_⟩
  · intro code h
    unfold checkExternalLink
    rw [h]
  · intro g code h
    unfold checkExternalLink
    dsimp only
    rw [h]
  · intro msg code h1 h2
    unfold checkExternalLink
    rw [h1, h2]
  · intro m1 m2 h1 h2
    unfold checkExternalLink
    rw [h1, h2]
  · intro cfg h1 h2 h3 h4 h5 h6
    obtain ⟨l2, hl2⟩ := checkExternalLink_isOk e l
    refine ⟨l2, hl2, ?_⟩
    unfold checkLink
    rw [h1, h2, h3, h4, h5, h6]
    simp only [Bool.or_self, Bool.false_eq_true, if_false, beq_self_eq_true, if_true]
    rw [hl2]

/-- Witness for C6: a HEAD answering 404 yields status 404 with error
    "HTTP 404"; a double transport failure yields status 0 with the
    transport error text. -/
theorem externalValidator_contract_witness :
    checkExternalLink env404 linkExternal =
      Except.ok {linkExternal with statusCode := 404, errorMessage := "HTTP 404"} ∧
    checkExternalLink envNone linkExternal =
      Except.ok {linkExternal with statusCode := 0, errorMessage := "connection refused"} :=
  ⟨(externalValidator_contract env404 linkExternal).1 404 rfl,
   (externalValidator_contract envNone linkExternal).2.2.2.1
     "connection refused" "connection refused" rfl rfl⟩

/-! ## Membership in the deduplicated candidate list, and loop lemmas -/

theorem contains_true_iff_mem (l : List String) (a : String) : l.contains a = true ↔ a ∈ l := by
  simp

theorem dedupLoop_mem (rest : List String) : ∀ seen uniq : List String,
    (∀ s, s ∈ seen ↔ s ∈ uniq) → ∀ p, p ∈ rest ∨ p ∈ uniq → p ∈ dedupLoop seen uniq rest := by
  induction rest with
  | nil =>
    intro seen uniq _ p hp
    unfold dedupLoop
    rcases hp with h | h
    · cases h
    · exact h
  | cons q rest ih =>
    intro seen uniq hinv p hp
    unfold dedupLoop
    by_cases hq : seen.contains q = true
    · rw [if_pos hq]
      refine ih seen uniq hinv p ?_
      rcases hp with h | h
      · rcases List.mem_cons.mp h with rfl | h2
        · exact Or.inr ((hinv p).mp ((contains_true_iff_mem seen p).mp hq))
        · exact Or.inl h2
      · exact Or.inr h
    · rw [if_neg hq]
      refine ih (seen ++ [q]) (uniq ++ [q]) (fun s => by simp [hinv s]) p ?_
      rcases hp with h | h
      · rcases List.mem_cons.mp h with rfl | h2
        · exact Or.inr (by simp)
        · exact Or.inl h2
      · exact Or.inr (by simp [h])

theorem dedupFirst_mem (paths : List String) (p : String) (hp : p ∈ paths) :
    p ∈ dedupFirst paths :=
  dedupLoop_mem paths [] [] (fun s => by simp) p (Or.inl hp)

theorem hugoFileLoop_found (e : Env) (v : Bool) (cs : List String) : ∀ checked : List String,
    (∃ p ∈ cs, (e.fs p).isSome = true) → (hugoFileLoop e v checked cs).1 = true := by
  induction cs with
  | nil =>
    intro checked hex
    obtain ⟨p, hp, _⟩ := hex
    cases hp
  | cons q rest ih =>
    intro checked hex
    obtain ⟨p, hp, hsome⟩ := hex
    unfold hugoFileLoop
    dsimp only
    split
    · rfl
    · next hq =>
      have hpr : p ∈ rest := by
        rcases List.mem_cons.mp hp with rfl | h
        · exact absurd hsome hq
        · exact h
      split
      · split
        · rfl
        · exact ih _ ⟨p, hpr, hsome⟩
      · exact ih _ ⟨p, hpr, hsome⟩

theorem statLoop_found (e : Env) (v : Bool) (cs : List String) : ∀ checked : List String,
    (∃ p ∈ cs, (e.fs p).isSome = true) → (statLoop e v checked cs).1 = true := by
  induction cs with
  | nil =>
    intro checked hex
    obtain ⟨p, hp, _⟩ := hex
    cases hp
  | cons q rest ih =>
    intro checked hex
    obtain ⟨p, hp, hsome⟩ := hex
    unfold statLoop
    dsimp only
    split
    · rfl
    · next hq =>
      have hpr : p ∈ rest := by
        rcases List.mem_cons.mp hp with rfl | h
        · exact absurd hsome hq
        · exact h
      exact ih _ ⟨p, hpr, hsome⟩

/-- C10 (implicit claim): candidate existence is tested with a stat call
    that does not distinguish regular files from directories, so a
    candidate path that exists as a directory makes local resolution report
    found and the link is finalized 200/empty — even in an environment with
    no regular files at all; the same holds for built-output resolution. -/
theorem dirCandidate_resolvesFound (e : Env) (cfg : Config) (l : Link) (p : String)
    (hBase : cfg.baseURL = "") (hPub : cfg.checkPublic = false)
    (hNE : stripPathSuffixes l.url ≠ "")
    (hMem : p ∈ hugoCandidatePaths (stripPathSuffixes l.url) cfg.rootDir)
    (hDir : e.fs p = some FsEntry.dir) :
    (checkHugoFile e (stripPathSuffixes l.url) cfg.rootDir cfg.verbose).1 = true ∧
    checkInternalLink e cfg l = Except.ok {l with statusCode := 200, errorMessage := ""} ∧
    (∀ lp root (v : Bool) (q : String), q ∈ publicCandidatePaths lp root →
      e.fs q = some FsEntry.dir → (checkPublicFileVerbose e lp root v).1 = true) := by
  have hsome : (e.fs p).isSome = true := by rw [hDir]; rfl
  have hfound : (checkHugoFile e (stripPathSuffixes l.url) cfg.rootDir cfg.verbose).1 = true := by
    unfold checkHugoFile
    exact hugoFileLoop_found e cfg.verbose _ [] ⟨p, dedupFirst_mem _ _ hMem, hsome⟩
  refine ⟨hfound, ?_, ?_⟩
  · unfold checkInternalLink
    rw [if_neg hNE]
    have hb : ¬(cfg.baseURL ≠ "") := by rw [hBase]; simp
    rw [if_neg hb]
    simp only [hPub, Bool.false_eq_true, if_false]
    unfold internalOutcome
    rw [hfound]
    rfl
  · intro lp root v q hq hdq
    unfold checkPublicFileVerbose
    exact statLoop_found e v _ [] ⟨q, dedupFirst_mem _ _ hq, by rw [hdq]; rfl⟩

/-- Witness for C10: `/static` resolves to 200 in an environment whose only
    filesystem entry is the directory `r/static`. -/
theorem dirCandidate_resolvesFound_witness :
    checkInternalLink envStaticDir cfgLocal linkStatic =
      Except.ok {linkStatic with statusCode := 200, errorMessage := ""} :=
  (dirCandidate_resolvesFound envStaticDir cfgLocal linkStatic "r/static" rfl rfl
    (by decide) (by decide) rfl).2.1

/-! ## The broken-link counters (C1) -/

theorem countBroken_inner (links : List Link) : ∀ n : Nat,
    links.foldl (fun count link =>
      if link.ignored then count
      else if 400 ≤ link.statusCode || (link.statusCode == 0 && link.errorMessage != "") then
        count + 1
      else count) n = n + links.countP specBroken := by
  induction links with
  | nil => intro n; simp
  | cons l ls ih =>
    intro n
    rw [List.foldl_cons, ih, List.countP_cons]
    by_cases hig : l.ignored = true
    · simp [specBroken, hig]
    · by_cases hb :
        (decide (400 ≤ l.statusCode) || (l.statusCode == 0 && l.errorMessage != "")) = true
      · simp [specBroken, hig, hb]
        omega
      · simp [specBroken, hig, hb]

theorem countBroken_eq (files : List File) :
    CountBrokenLinks files = (allLinks files).countP specBroken := by
  have outer : ∀ (fs : List File) (n : Nat),
      fs.foldl (fun count file =>
        file.links.foldl (fun count link =>
          if link.ignored then count
          else if 400 ≤ link.statusCode ||
              (link.statusCode == 0 && link.errorMessage != "") then
            count + 1
          else count) count) n = n + (allLinks fs).countP specBroken := by
    intro fs
    induction fs with
    | nil => intro n; simp [allLinks]
    | cons f fs ih =>
      intro n
      rw [List.foldl_cons, ih, countBroken_inner]
      simp [allLinks, List.countP_append]
      omega
  have h := outer files 0
  unfold CountBrokenLinks
  rw [h]
  omega

theorem summaryStep_broken (st : List String × ReportSummary) (l : Link) :
    (summaryStep st l).2.brokenLinks = st.2.brokenLinks + (if rawBroken l then 1 else 0) := by
  unfold summaryStep rawBroken
  dsimp only
  split <;> split <;> simp

theorem summary_broken_fold (links : List Link) : ∀ st : List String × ReportSummary,
    ((links.foldl summaryStep st).2).brokenLinks = st.2.brokenLinks + links.countP rawBroken := by
  induction links with
  | nil => intro st; simp
  | cons l ls ih =>
    intro st
    rw [List.foldl_cons, ih, summaryStep_broken, List.countP_cons]
    cases hr : rawBroken l <;> (simp [hr]; try omega)

theorem calculateSummary_broken (files : List File) :
    (calculateSummary files).brokenLinks = (allLinks files).countP rawBroken := by
  have outer : ∀ (fs : List File) (st : List String × ReportSummary),
      ((fs.foldl (fun st file =>
          (file.links.foldl summaryStep
            (st.1, {st.2 with totalLinks := st.2.totalLinks + file.links.length}))) st).2).brokenLinks
        = st.2.brokenLinks + (allLinks fs).countP rawBroken := by
    intro fs
    induction fs with
    | nil => intro st; simp [allLinks]
    | cons f fs ih =>
      intro st
      rw [List.foldl_cons, ih, summary_broken_fold]
      dsimp only
      simp [allLinks, List.countP_append]
      omega
  unfold calculateSummary
  dsimp only
  rw [outer files]
  simp [allLinks]

/-- C1 (amended): the aggregator `CountBrokenLinks` counts a link iff it is
    not ignored and (status >= 400 or status 0 with non-empty error), and
    status 0 with empty error never counts; the reporter's
    `calculateSummary` applies the same predicate WITHOUT the not-ignored
    conjunct, so the two counts agree exactly on collections in which every
    ignored link is non-broken by the raw predicate (as `CheckLinks`
    guarantees by finalizing ignored links as 200/empty). -/
theorem brokenPredicate_agreement (files : List File) :
    CountBrokenLinks files = (allLinks files).countP specBroken ∧
    (calculateSummary files).brokenLinks = (allLinks files).countP rawBroken ∧
    ((∀ l ∈ allLinks files, l.ignored = true → rawBroken l = false) →
      (calculateSummary files).brokenLinks = CountBrokenLinks files) := by
  refine ⟨countBroken_eq files, calculateSummary_broken files, fun h => ?_⟩
  rw [countBroken_eq files, calculateSummary_broken files]
  apply List.countP_congr
  intro l hl
  by_cases hig : l.ignored = true
  · have hr := h l hl hig
    simp [specBroken, rawBroken] at hr ⊢
    simp [hig, hr.1]
    exact hr.2
  · simp [specBroken, rawBroken, hig]

/-- C1 counterexample: on a collection whose single link is ignored with
    status 404, the aggregator counts 0 broken links but the reporter's
    summary counts 1 — the two derivations do not apply an identical
    predicate. -/
theorem brokenPredicate_reporter_counterexample :
    CountBrokenLinks [fileIgnored404] = 0 ∧
    (calculateSummary [fileIgnored404]).brokenLinks = 1 :=
  ⟨rfl, rfl⟩

/-- Witness for C1's amended theorem on a mixed collection where every
    ignored link was finalized 200/empty. -/
theorem brokenPredicate_agreement_witness :
    (calculateSummary [fileMixed]).brokenLinks = CountBrokenLinks [fileMixed] :=
  (brokenPredicate_agreement [fileMixed]).2.2 (by decide)

/-! ## Extractor deduplication (C9) -/

theorem NewLink_url (u : String) : (NewLink u).url = u := rfl

theorem firstOccurrences_acc (l : List String) : ∀ acc : List String,
    l.foldl (fun acc u => if acc.contains u then acc else acc ++ [u]) acc
      = acc ++ newOccurrences acc l := by
  induction l with
  | nil => intro acc; simp [newOccurrences]
  | cons u us ih =>
    intro acc
    rw [List.foldl_cons]
    unfold newOccurrences
    by_cases h : acc.contains u = true
    · rw [if_pos h, if_pos h, ih]
    · rw [if_neg h, if_neg h, ih]
      simp

theorem extractStep_none (st : List String × List Link) (m : String)
    (h : cleanCapture m = none) : extractStep st m = st := by
  unfold extractStep
  rw [h]

theorem extractStep_seen (st : List String × List Link) (m u : String)
    (h : cleanCapture m = some u) (hs : st.1.contains u = true) : extractStep st m = st := by
  unfold extractStep
  rw [h]
  exact if_pos hs

theorem extractStep_new (st : List String × List Link) (m u : String)
    (h : cleanCapture m = some u) (hs : ¬st.1.contains u = true) :
    extractStep st m = (st.1 ++ [u], st.2 ++ [NewLink u]) := by
  unfold extractStep
  rw [h]
  exact if_neg hs

theorem extract_fold (ms : List String) : ∀ (seen : List String) (links : List Link),
    seen = links.map Link.url →
    (ms.foldl extractStep (seen, links)).2
      = links ++ (newOccurrences seen (ms.filterMap cleanCapture)).map NewLink := by
  induction ms with
  | nil => intro seen links _; simp [newOccurrences]
  | cons m ms ih =>
    intro seen links h
    rw [List.foldl_cons]
    cases hc : cleanCapture m with
    | none =>
      simp only [List.filterMap_cons, hc]
      rw [extractStep_none _ _ hc]
      exact ih seen links h
    | some u =>
      simp only [List.filterMap_cons, hc]
      unfold newOccurrences
      by_cases hs : seen.contains u = true
      · rw [if_pos hs, extractStep_seen _ _ _ hc hs]
        exact ih seen links h
      · rw [if_neg hs, extractStep_new _ _ _ hc hs]
        have h2 : seen ++ [u] = (links ++ [NewLink u]).map Link.url := by
          simp [h, NewLink_url]
        rw [ih (seen ++ [u]) (links ++ [NewLink u]) h2]
        simp

theorem newOccurrences_nodup (l : List String) : ∀ seen : List String,
    (newOccurrences seen l).Nodup ∧ ∀ u ∈ newOccurrences seen l, u ∉ seen := by
  induction l with
  | nil => intro seen; simp [newOccurrences]
  | cons x xs ih =>
    intro seen
    unfold newOccurrences
    by_cases h : seen.contains x = true
    · rw [if_pos h]
      exact ih seen
    · rw [if_neg h]
      obtain ⟨hnd, hnotin⟩ := ih (seen ++ [x])
      refine ⟨List.nodup_cons.mpr ⟨fun hx => hnotin x hx (by simp), hnd⟩, ?_⟩
      intro u hu
      rcases List.mem_cons.mp hu with rfl | h2
      · intro hus
        exact h ((contains_true_iff_mem seen u).mpr hus)
      · intro hus
        exact hnotin u h2 (by simp [hus])

/-- C9: the extractor's output is exactly the first-occurrence
    deduplication of the cleaned capture stream — so no two links of a page
    share a URL (the URL list is duplicate-free) and each URL's position is
    that of its first occurrence during extraction.  `lineMatches` stands
    for the raw per-line regex captures, in the source's order. -/
theorem extractor_dedup_firstOccurrence (lineMatches : String → List String) (text : String) :
    ParseLinksFromFile lineMatches text =
      (firstOccurrences
        ((((goScanLines text).map lineMatches).flatten).filterMap cleanCapture)).map NewLink ∧
    ((ParseLinksFromFile lineMatches text).map Link.url).Nodup := by
  have h1 : ParseLinksFromFile lineMatches text
      = (newOccurrences []
          ((((goScanLines text).map lineMatches).flatten).filterMap cleanCapture)).map NewLink := by
    unfold ParseLinksFromFile
    rw [extract_fold _ [] [] rfl]
    simp
  have h2 : firstOccurrences
        ((((goScanLines text).map lineMatches).flatten).filterMap cleanCapture)
      = newOccurrences []
          ((((goScanLines text).map lineMatches).flatten).filterMap cleanCapture) := by
    unfold firstOccurrences
    rw [firstOccurrences_acc]
    simp
  refine ⟨by rw [h1, h2], ?_⟩
  rw [h1, List.map_map]
  have hcomp : (Link.url ∘ NewLink) = id := funext fun u => rfl
  rw [hcomp, List.map_id]
  exact (newOccurrences_nodup _ []).1

/-! ## The classifier (C3) -/

/-- C3: classification returns External exactly when the URL string parses
    with a non-empty scheme or a non-empty host; every other string —
    including the empty string, fragment-only strings, and strings whose
    parse fails — classifies Internal. -/
theorem classifier_external_iff :
    (∀ s : String, (NewLink s).type = LinkType.external ↔
      ∃ u, urlParse s = Except.ok u ∧ (u.scheme ≠ "" ∨ u.host ≠ "")) ∧
    (NewLink "").type = LinkType.internal ∧
    (NewLink "#x").type = LinkType.internal ∧
    (NewLink "https://example.com").type = LinkType.external ∧
    (NewLink "mailto:user@example.com").type = LinkType.external ∧
    urlParse ":" = Except.error "missing protocol scheme" ∧
    (NewLink ":").type = LinkType.internal := by
  refine ⟨fun s => ?_, by decide, by decide, by decide, by decide, rfl, by decide⟩
  unfold NewLink isInternalLink
  cases h : urlParse s with
  | error err =>
    simp only [h]
    constructor
    · intro hx
      exact absurd hx (by simp)
    · rintro ⟨u, hu, _⟩
      cases hu
  | ok u =>
    simp only [h]
    by_cases hsh : (u.scheme != "" || u.host != "") = true
    · simp only [hsh]
      constructor
      · intro _
        refine ⟨u, rfl, ?_⟩
        simpa [Bool.or_eq_true, bne_iff_ne] using hsh
      · intro _
        simp
    · simp only [Bool.not_eq_true] at hsh
      simp only [hsh]
      constructor
      · intro hx
        exact absurd hx (by simp)
      · rintro ⟨u2, hu2, hdisj⟩
        rw [Except.ok.injEq] at hu2
        subst hu2
        have : (u.scheme != "" || u.host != "") = true := by
          simpa [Bool.or_eq_true, bne_iff_ne] using hdisj
        rw [hsh] at this
        cases this

/-! ## Trailing-slash candidate generation (C7) -/

theorem trimPrefix_slash_suffix (s : String) (h1 : goHasSuffix s "/" = true)
    (h2 : goTrimPrefix s "/" ≠ "") : goHasSuffix (goTrimPrefix s "/") "/" = true := by
  unfold goHasSuffix goTrimPrefix at *
  by_cases hp : ("/" : String).toList.isPrefixOf s.toList = true
  · rw [if_pos hp] at h2 ⊢
    have hslash : ("/" : String).toList = ['/'] := rfl
    rw [hslash] at h1 hp ⊢
    rw [List.isSuffixOf_iff_suffix] at h1 ⊢
    obtain ⟨t0, ht0⟩ := h1
    have hne : t0 ≠ [] := by
      intro hnil
      subst hnil
      rw [List.nil_append] at ht0
      apply h2
      rw [← ht0]
      rfl
    cases t0 with
    | nil => exact absurd rfl hne
    | cons c t0 =>
      rw [← ht0]
      exact ⟨t0, by simp⟩
  · rw [if_neg hp] at h2 ⊢
    exact h1

/-- C7 (amended): for every internal link path ending in "/" whose
    leading-slash-stripped form is non-empty (every path ending in "/"
    except the bare "/"), the generated local-mode candidate list includes
    `<root>/content/<base>.md`, `<root>/content/<base>/index.md` and
    `<root>/content/<base>/_index.md`, where `<base>` is the link path with
    its leading slash (if any) and its trailing slash removed. -/
theorem trailingSlash_candidates (rootDir linkPath : String)
    (h1 : goHasSuffix linkPath "/" = true) (h2 : goTrimPrefix linkPath "/" ≠ "") :
    goJoin [rootDir, "content", goTrimSuffix (goTrimPrefix linkPath "/") "/" ++ ".md"]
        ∈ hugoCandidatePaths linkPath rootDir ∧
    goJoin [rootDir, "content", goTrimSuffix (goTrimPrefix linkPath "/") "/", "index.md"]
        ∈ hugoCandidatePaths linkPath rootDir ∧
    goJoin [rootDir, "content", goTrimSuffix (goTrimPrefix linkPath "/") "/", "_index.md"]
        ∈ hugoCandidatePaths linkPath rootDir := by
  have hs := trimPrefix_slash_suffix linkPath h1 h2
  unfold hugoCandidatePaths
  simp only [hs, if_true, List.mem_append, List.mem_cons, List.mem_singleton]
  refine ⟨?_, ?_, ?_⟩ <;> tauto

/-- C7 counterexample: for the link path "/" (which ends in "/"), `<base>`
    is the empty string and none of the three claimed candidate paths is
    generated — the trailing-slash transformation family is skipped because
    the leading-slash strip leaves an empty path. -/
theorem trailingSlash_counterexample :
    goHasSuffix "/" "/" = true ∧
    goJoin ["r", "content", goTrimSuffix "/" "/" ++ ".md"] = "r/content/.md" ∧
    "r/content/.md" ∉ hugoCandidatePaths "/" "r" ∧
    goJoin ["r", "content", goTrimSuffix "/" "/", "index.md"] = "r/content/index.md" ∧
    "r/content/index.md" ∉ hugoCandidatePaths "/" "r" ∧
    goJoin ["r", "content", goTrimSuffix "/" "/", "_index.md"] = "r/content/_index.md" ∧
    "r/content/_index.md" ∉ hugoCandidatePaths "/" "r" := by
  decide

/-- Witness for C7's amended theorem at the link path "/about/" under root
    "r". -/
theorem trailingSlash_candidates_witness :
    ("r/content/about.md" ∈ hugoCandidatePaths "/about/" "r") ∧
    ("r/content/about/index.md" ∈ hugoCandidatePaths "/about/" "r") ∧
    ("r/content/about/_index.md" ∈ hugoCandidatePaths "/about/" "r") :=
  trailingSlash_candidates "r" "/about/" (by decide) (by decide)

end HugoLinkChecker
